import Mathlib

/-!
Verification of the garden command (src/pkg/cmd/repo/garden/garden.go).

The Go source is shallowly embedded: Go ints become `Int` (with `Nat` for
quantities the code keeps nonnegative, such as loop counters), Go strings
become `String`, Go float64 values become `ℚ` (only their order matters to
the program: `rand.Float64() < 0.5` and `chance <= geo.Density`), and code
that can panic returns `Option` (`none` models the panic).

The shared seeded random source (`math/rand` after `rand.Seed(seed)`) is an
external collaborator, modelled as a structure of streams indexed by the
position of the draw in program order: `intn k n` is the value of the k-th
draw when the program asks for `rand.Intn n` there (reduced `% n` to encode
the documented contract that `Intn n` lies in `[0, n)` for `n > 0`), and
`float k` the value when it asks for `rand.Float64()`. `plantGarden` makes
one `Intn` draw (position 0) and then only `Float64` draws (positions 1, 2,
...), exactly in the order the Go loops make them.
-/

namespace Garden

/-- `Geometry` from garden.go: width, height, density, and the repository
(only its full display name matters to the generator, for the sign cell). -/
structure Geometry where
  width : Nat
  height : Nat
  density : ℚ
  repoFullName : String
deriving DecidableEq

/-- `Commit` from garden.go. -/
structure Commit where
  email : String
  handle : String
  sha : String
  char : String
deriving DecidableEq

/-- `Cell` from garden.go: a display glyph and a status-line text. -/
structure Cell where
  char : String
  statusLine : String
deriving DecidableEq

/-- `RGB` from garden.go: a 24-bit-color escape-coded text fragment. -/
def RGB (r g b : Nat) (x : String) : String :=
  "\x1b[38;2;" ++ toString r ++ ";" ++ toString g ++ ";" ++ toString b ++ "m"
    ++ x ++ "\x1b[0m"

/-- The construction site of a cell in `plantGarden`: which branch of the
cell loop produced it, with the data that branch reads. `render` below maps
each kind to the exact `Cell` literal of the source, so the string-level
grid is `render` mapped over the kind-level grid. -/
inductive CellKind where
  | tree
  | stream (tint : Nat)
  | wildflower
  | sign
  | grass
  | flower (c : Commit)
deriving DecidableEq

/-- The `Cell` literals of garden.go, one per branch of the cell loop.
`commit.Sha[0:6]` is `String.take 6` (the CommitRecord contract gives the
hash at least 6 characters). -/
def render (geo : Geometry) : CellKind → Cell
  | .tree =>
      ⟨RGB 0 150 0 "^", "You're standing under a tall, leafy tree."⟩
  | .stream t =>
      ⟨RGB t t 255 "#", "You're standing in a shallow stream. It's refreshing."⟩
  | .wildflower =>
      ⟨RGB 0 200 0 ",", "You're standing by a wildflower garden. There is a light breeze."⟩
  | .sign =>
      ⟨RGB 139 69 19 "+",
        "You're standing in front of a weather-beaten sign that says "
          ++ geo.repoFullName ++ "."⟩
  | .grass =>
      ⟨RGB 0 200 0 ",", "You're standing on a patch of grass in a field of wildflowers."⟩
  | .flower c =>
      ⟨c.char,
        "You're standing at a flower called " ++ c.sha.take 6
          ++ " planted by " ++ c.handle ++ "."⟩

/-- The mutable locals of `plantGarden`, threaded through the loops:
`cellIx` (next unused commit), `streamIx` (current stream column, a Go int
that takes part in signed comparisons), `tint` (stream gradient), and `k`,
the position of the next draw from the shared random source. -/
structure GenState where
  cellIx : Nat
  streamIx : Int
  tint : Nat
  k : Nat
deriving DecidableEq

/-- The seeded random source, as the streams of its draws (see the file
header). -/
structure Rng where
  intn : Nat → Nat → Nat
  float : Nat → ℚ

/-- The tree-border condition of the cell loop:
`(y > 0 && (x == 0 || x == geo.Width-1)) || y == geo.Height-1`. -/
def borderCond (geo : Geometry) (y x : Nat) : Prop :=
  (0 < y ∧ (x = 0 ∨ (x : Int) = (geo.width : Int) - 1)) ∨
    (y : Int) = (geo.height : Int) - 1

instance (geo : Geometry) (y x : Nat) : Decidable (borderCond geo y x) := by
  unfold borderCond; infer_instance

/-- The float literal `0.5` (written through `mkRat` so that concrete
runs reduce inside the kernel). -/
def oneHalf : ℚ := mkRat 1 2

/-- The stream-column update after placing a stream cell:
`streamIx--; if rand.Float64() < 0.5 { streamIx++ };` then clamp below at 0
and above at `geo.Width`. `q` is the `Float64` draw. -/
def streamUpd (geo : Geometry) (q : ℚ) (s : Int) : Int :=
  let s1 := s - 1
  let s2 := if q < oneHalf then s1 + 1 else s1
  let s3 := if s2 < 0 then 0 else s2
  if (geo.width : Int) < s3 then (geo.width : Int) else s3

/-- One iteration of the cell loop of `plantGarden` at row `y`, column `x`:
the produced cell kind and the next state, or `none` where the Go code
panics (indexing `commits[cellIx]` out of range). The branches and their
order are those of the source; `f` is the `Float64` stream. -/
def plantCell (geo : Geometry) (commits : List Commit) (f : Nat → ℚ)
    (y x : Nat) (st : GenState) : Option (CellKind × GenState) :=
  if borderCond geo y x then
    some (.tree, st)
  else if (x : Int) = st.streamIx then
    some (.stream st.tint,
      { st with tint := st.tint + 15,
                streamIx := streamUpd geo (f st.k) st.streamIx,
                k := st.k + 1 })
  else if y = 0 ∧ (x < geo.width / 2 ∨ geo.width / 2 < x) then
    some (.wildflower, st)
  else if y = 0 ∧ x = geo.width / 2 then
    some (.sign, st)
  else if (st.cellIx : Int) = (commits.length : Int) - 1 then
    some (.grass, st)
  else
    if f st.k ≤ geo.density then
      match commits.get? st.cellIx with
      | some c =>
          some (.flower c, { st with cellIx := st.cellIx + 1, k := st.k + 1 })
      | none => none
    else
      some (.grass, { st with k := st.k + 1 })

/-- The cell loop `for x := 0; x < geo.Width; x++`, from column `x` with
`fuel` columns left (the loop itself is `plantRowAux ... 0 geo.width`). -/
def plantRowAux (geo : Geometry) (commits : List Commit) (f : Nat → ℚ)
    (y : Nat) : Nat → Nat → GenState → Option (List CellKind × GenState)
  | _, 0, st => some ([], st)
  | x, fuel + 1, st =>
    match plantCell geo commits f y x st with
    | none => none
    | some (c, st1) =>
      match plantRowAux geo commits f y (x + 1) fuel st1 with
      | none => none
      | some (row, st2) => some (c :: row, st2)

/-- One full row of the garden at row index `y`. -/
def plantRow (geo : Geometry) (commits : List Commit) (f : Nat → ℚ)
    (y : Nat) (st : GenState) : Option (List CellKind × GenState) :=
  plantRowAux geo commits f y 0 geo.width st

/-- The row loop `for y := 0; y < geo.Height; y++`, with its early break
`if cellIx == len(commits)-1 { break }` checked before each row (the Go
comparison is between ints, so for an empty commit list the right side is
`-1` and the break never fires). -/
def plantRowsAux (geo : Geometry) (commits : List Commit) (f : Nat → ℚ) :
    Nat → Nat → GenState → Option (List (List CellKind) × GenState)
  | _, 0, st => some ([], st)
  | y, fuel + 1, st =>
    if (st.cellIx : Int) = (commits.length : Int) - 1 then
      some ([], st)
    else
      match plantRowAux geo commits f y 0 geo.width st with
      | none => none
      | some (row, st1) =>
        match plantRowsAux geo commits f (y + 1) fuel st1 with
        | none => none
        | some (rows, st2) => some (row :: rows, st2)

/-- The starting stream column: `streamIx := rand.Intn(geo.Width - 1)`
(the draw at position 0, reduced into `[0, geo.Width-2]` to encode the
`Intn` contract), then `if streamIx == geo.Width/2 { streamIx-- }`. -/
def initStreamIx (r : Rng) (geo : Geometry) : Int :=
  let d : Nat := r.intn 0 (geo.width - 1) % (geo.width - 1)
  if d = geo.width / 2 then (d : Int) - 1 else (d : Int)

/-- `plantGarden` from garden.go, at the kind level: `none` models a panic
(`rand.Intn(geo.Width - 1)` with `geo.Width - 1 <= 0`, or an out-of-range
commit access inside the loops). -/
def plantGarden (r : Rng) (geo : Geometry) (commits : List Commit) :
    Option (List (List CellKind)) :=
  if geo.width ≤ 1 then none
  else
    match plantRowsAux geo commits r.float 0 geo.height
        ⟨0, initStreamIx r geo, 0, 1⟩ with
    | none => none
    | some (rows, _) => some rows

/-- The grid as the source builds it: `Cell` values. -/
def plantGardenCells (r : Rng) (geo : Geometry) (commits : List Commit) :
    Option (List (List Cell)) :=
  (plantGarden r geo commits).map (List.map (List.map (render geo)))

/-- The commit of a flower cell, if the cell is one. -/
def flowerOf : CellKind → Option Commit
  | .flower c => some c
  | _ => none

/-- The flower commits of one row, left to right. -/
def rowFlowers (row : List CellKind) : List Commit :=
  row.filterMap flowerOf

/-- The flower commits of a grid, in row-major order. -/
def flowersOf (g : List (List CellKind)) : List Commit :=
  (g.flatten).filterMap flowerOf

/-- True when a row holds no stream cell. -/
def streamFree (row : List CellKind) : Bool :=
  row.all fun c => match c with
    | .stream _ => false
    | _ => true

/-- The kind generated at row `y`, column `x` of a generated grid. -/
def cellKindAt (o : Option (List (List CellKind))) (y x : Nat) :
    Option CellKind :=
  match o with
  | none => none
  | some g =>
    match g.get? y with
    | none => none
    | some row => row.get? x

/-- The tree cell literal of the source (fixed glyph, fixed status text). -/
def treeCellVal : Cell :=
  ⟨RGB 0 150 0 "^", "You're standing under a tall, leafy tree."⟩

/-- A boolean check on the payload of an `Option`, vacuously true on
`none`. -/
def optAll {α : Type} (p : α → Bool) : Option α → Bool
  | none => true
  | some a => p a

/-- The spec's description of the stream walk after a placement: decrement
by 1, with probability 1/2 (here: the draw `q < 1/2`) increment back, and
clamp the result to `[0, width]` (spec words, for comparison with
`streamUpd`). -/
def streamStepSpec (geo : Geometry) (q : ℚ) (s : Int) : Int :=
  max 0 (min (geo.width : Int) (s - 1 + (if q < oneHalf then 1 else 0)))

/-- Checks that every row of the grid other than row 0 holds the tree cell
at columns 0 and width-1. -/
def rowEdgesTree (geo : Geometry) (g : List (List Cell)) : Bool :=
  (List.range g.length).all fun y =>
    if y = 0 then true
    else
      match g.get? y with
      | some row =>
          decide (row.get? 0 = some treeCellVal) &&
            decide (row.get? (geo.width - 1) = some treeCellVal)
      | none => false

/-- Checks that, when the grid reached its full `height` rows, every cell
of the last row is the tree cell. -/
def lastRowTree (geo : Geometry) (g : List (List Cell)) : Bool :=
  if g.length = geo.height then
    match g.get? (geo.height - 1) with
    | some row => row.all fun c => decide (c = treeCellVal)
    | none => false
  else true

/-- Checks that the cells of row 0 at columns 0 and width-1 are not tree
cells. -/
def row0NotTree (geo : Geometry) (g : List (List CellKind)) : Bool :=
  match g.get? 0 with
  | none => true
  | some row =>
      (match row.get? 0 with
       | some CellKind.tree => false
       | _ => true) &&
      (match row.get? (geo.width - 1) with
       | some CellKind.tree => false
       | _ => true)

/-- The flower bookkeeping of C4 on a generated grid: the flower cells are
a prefix of the commit list taken in order, there are at most as many as
commits, at most `height` rows exist, and a short grid means the flower
count reached exactly (commits - 1). -/
def c4check (geo : Geometry) (commits : List Commit)
    (g : List (List CellKind)) : Bool :=
  decide (flowersOf g = commits.take (flowersOf g).length) &&
  decide ((flowersOf g).length ≤ commits.length) &&
  decide (g.length ≤ geo.height) &&
  (if g.length < geo.height then
    decide ((flowersOf g).length + 1 = commits.length)
   else true)

/-- A sample random source whose `Float64` draws are all 1 (no flower is
ever placed, the stream drifts left each row). -/
def rngEx1 : Rng := ⟨fun _ _ => 1, fun _ => 1⟩

/-- A sample random source whose `Float64` draws are all 0 (every eligible
cell becomes a flower, the stream column holds). -/
def rngEx0 : Rng := ⟨fun _ _ => 1, fun _ => 0⟩

/-- A sample geometry: 5 wide, 4 tall, the source's density 0.3. -/
def geoEx : Geometry := ⟨5, 4, mkRat 3 10, "owner/repo"⟩

/-- A sample commit. -/
def commitEx1 : Commit := ⟨"e1", "h1", "abcdef1", "*"⟩

/-- Another sample commit. -/
def commitEx2 : Commit := ⟨"e2", "h2", "123456a", "&"⟩

/-- A sample random source that matches `rngEx0` on the first 100 draws
and differs afterwards. -/
def rngW1 : Rng := ⟨fun _ _ => 1, fun k => if k < 100 then 0 else 1⟩

/-- `utils.Bold` (external collaborator): bold-styled escape-coded text. -/
def bold (s : String) : String := "\x1b[1m" ++ s ++ "\x1b[0m"

/-- `Player` from garden.go. Coordinates are Go ints. -/
structure Player where
  x : Int
  y : Int
  char : String
  geo : Geometry
  shoeMoistureContent : Int
deriving DecidableEq

/-- The four direction constants `DirUp`, `DirDown`, `DirLeft`, `DirRight`
(a closed enumeration in the source, `iota` over int). -/
inductive Direction where
  | up
  | down
  | left
  | right
deriving DecidableEq

/-- `(*Player) move` from garden.go: the updated player and the returned
bool. Each direction is blocked by an equality test against the grid edge;
otherwise the coordinate moves by exactly 1. -/
def Player.move (p : Player) (d : Direction) : Player × Bool :=
  match d with
  | .up => if p.y = 0 then (p, false) else ({ p with y := p.y - 1 }, true)
  | .down =>
      if p.y = (p.geo.height : Int) - 1 then (p, false)
      else ({ p with y := p.y + 1 }, true)
  | .left => if p.x = 0 then (p, false) else ({ p with x := p.x - 1 }, true)
  | .right =>
      if p.x = (p.geo.width : Int) - 1 then (p, false)
      else ({ p with x := p.x + 1 }, true)

/-- The starting player of `gardenRun`: `&Player{0, 0, utils.Bold("@"), geo, 0}`. -/
def startPlayer (geo : Geometry) : Player :=
  ⟨0, 0, bold "@", geo, 0⟩

/-- The player after a sequence of `move` calls (positions only; this is
the accepted-or-blocked movement fold of the game loop). -/
def walk (p : Player) (ds : List Direction) : Player :=
  ds.foldl (fun q d => (q.move d).1) p

/-- The player's position is inside `[0,width-1] × [0,height-1]`. -/
def inBox (geo : Geometry) (p : Player) : Prop :=
  0 ≤ p.x ∧ p.x ≤ (geo.width : Int) - 1 ∧ 0 ≤ p.y ∧ p.y ≤ (geo.height : Int) - 1

/-- ASCII case folding of one byte, as `bytes.EqualFold` folds single
ASCII bytes (an upper-case letter folds to lower case; a byte outside
`A`..`Z` is left alone, and a non-ASCII single byte never compares equal
to an ASCII letter). -/
def asciiFold (b : Nat) : Nat := if 65 ≤ b ∧ b ≤ 90 then b + 32 else b

/-- `bytes.EqualFold` on the one-byte buffer against a one-byte literal. -/
def eqFold (b c : Nat) : Bool := asciiFold b = asciiFold c

/-- `isLeft` from garden.go: `a`, `q` or `h` (case-insensitive). -/
def isLeft (b : Nat) : Bool := eqFold b 97 || eqFold b 113 || eqFold b 104

/-- `isRight` from garden.go: `d` or `l`. -/
def isRight (b : Nat) : Bool := eqFold b 100 || eqFold b 108

/-- `isDown` from garden.go: `s` or `j`. -/
def isDown (b : Nat) : Bool := eqFold b 115 || eqFold b 106

/-- `isUp` from garden.go: `w`, `z` or `k`. -/
def isUp (b : Nat) : Bool := eqFold b 119 || eqFold b 122 || eqFold b 107

/-- `isQuit` from garden.go: `q`. -/
def isQuit (b : Nat) : Bool := eqFold b 113

/-- The semantic action of one input byte, in the order the `switch` of
`gardenRun` checks its cases: movement classes first, quit after them,
anything else ignored. -/
inductive Action where
  | left
  | right
  | up
  | down
  | quit
  | ignore
deriving DecidableEq

/-- The input classifier: the first matching case of the `switch` in
`gardenRun`. -/
def classify (b : Nat) : Action :=
  if isLeft b then .left
  else if isRight b then .right
  else if isUp b then .up
  else if isDown b then .down
  else if isQuit b then .quit
  else .ignore

/-- What one loop iteration does after reading byte `b`: `cont` models
`continue`, `brk` models `break` (the quit exit), `render` models falling
through to the incremental redraw. -/
inductive Outcome where
  | cont
  | brk
  | render
deriving DecidableEq

/-- One iteration of the game loop of `gardenRun` after a successful read
of byte `b`: the `switch` sets `moved`, `quitting`, `continuing` exactly as
the source does, then `if !moved || continuing { continue }` and
`if quitting { break }` run in that order. -/
def loopIter (p : Player) (b : Nat) : Player × Outcome :=
  let res : Player × Bool × Bool × Bool :=
    match classify b with
    | .left => let m := p.move .left; (m.1, m.2, false, false)
    | .right => let m := p.move .right; (m.1, m.2, false, false)
    | .up => let m := p.move .up; (m.1, m.2, false, false)
    | .down => let m := p.move .down; (m.1, m.2, false, false)
    | .quit => (p, false, true, false)
    | .ignore => (p, false, false, true)
  let p' := res.1
  let moved := res.2.1
  let quitting := res.2.2.1
  let continuing := res.2.2.2
  if !moved || continuing then (p', .cont)
  else if quitting then (p', .brk)
  else (p', .render)

/-- Whether `pat` starts `s` (character lists). -/
def startsWith : List Char → List Char → Bool
  | _, [] => true
  | [], _ :: _ => false
  | a :: s, b :: p => a = b && startsWith s p

/-- Whether `pat` occurs inside `s` (character lists). -/
def containsSeq : List Char → List Char → Bool
  | [], pat => startsWith [] pat
  | s@(_ :: t), pat => startsWith s pat || containsSeq t pat

/-- `strings.Contains(s, pat)`. -/
def strContains (s pat : String) : Bool := containsSeq s.toList pat.toList

/-- The word the game loop looks for in a status line to decide that the
player stands in the stream. -/
def streamWord : String := "stream"

/-- The moisture update of one accepted move in `gardenRun` (and the same
numeric rule in `drawGarden`): on a stream cell the counter is set to 5,
otherwise it is decremented while positive. The Go field is an int. -/
def moistureStep (m : Int) (cell : Cell) : Int :=
  if strContains cell.statusLine streamWord then 5
  else if 0 < m then m - 1 else m

/-- The moisture counter after a sequence of accepted moves through the
given cells, starting from the initial player's 0. -/
def moistureRun (cells : List Cell) : Int :=
  cells.foldl moistureStep 0

/-- The decimal digit character of `d < 10`. -/
def digitChar (d : Nat) : Char := Char.ofNat (48 + d)

/-- `fmt.Sprintf("%d", n)` for a nonnegative int, as a character list:
the decimal digits, most significant first. -/
def natDecimal (n : Nat) : List Char :=
  if n = 0 then ['0'] else ((Nat.digits 10 n).reverse).map digitChar

/-- The digit string `computeSeed` builds: the loop
`for _, r := range seed { lol += fmt.Sprintf("%d", int(r)) }` over the
runes of the name (a Lean `String` iterates the same runes). -/
def digitStringL (cs : List Char) : List Char :=
  cs.foldl (fun acc c => acc ++ natDecimal c.toNat) []

/-- `strconv.ParseInt(s, 10, 64)` on a sign-less string, as the Go
contract specifies it: errors on the empty string, on a non-digit, and
outside the int64 range; otherwise the base-10 value. -/
def parseIntL (cs : List Char) : Option Int :=
  if cs.length = 0 then none
  else if cs.all Char.isDigit then
    let v : Int := cs.foldl (fun a c => a * 10 + ((c.toNat : Int) - 48)) 0
    if v < 2 ^ 63 then some v else none
  else none

/-- `computeSeed` from garden.go. `none` models the two unguarded panics:
the slice `lol[0:10]` when the digit string is shorter than 10, and the
`panic(err)` after a failed parse. -/
def computeSeed (s : String) : Option Int :=
  let lol := digitStringL s.toList
  if lol.length < 10 then none
  else parseIntL (lol.take 10)

/-- The seed the spec describes: the numeric value of the first 10 digits
of the concatenated code-point string, as a total function (spec words,
for comparison with `computeSeed`). -/
def seedSpecValue (s : String) : Int :=
  ((digitStringL s.toList).take 10).foldl
    (fun a c => a * 10 + ((c.toNat : Int) - 48)) 0

/-! ### Input classifier and game-loop exit -/

lemma isQuit_isLeft (b : Nat) (h : isQuit b = true) : isLeft b = true := by
  unfold isQuit at h
  unfold isLeft
  rw [h]
  simp

lemma classify_ne_quit (b : Nat) : classify b ≠ Action.quit := by
  intro h
  unfold classify at h
  split_ifs at h with h1 h2 h3 h4 h5
  exact absurd (isQuit_isLeft b h5) h1

lemma loopIter_ne_brk (p : Player) (b : Nat) : (loopIter p b).2 ≠ Outcome.brk := by
  unfold loopIter
  rcases hc : classify b with _ | _ | _ | _ | _ | _ <;>
    simp only [hc] <;> (try simp) <;> (try split_ifs <;> simp)

/-- C1: every input byte is classified by the movement classes before the
quit check; the byte `q` (113) and `Q` (81) satisfy the Left class, so
they classify as Left movement; no byte ever reaches the quit
classification, and no iteration of the game loop ever takes the `break`
exit (so the loop can only end when the input read errors). -/
theorem claim1_quit_unreachable :
    classify 113 = Action.left ∧ classify 81 = Action.left ∧
    (∀ b : Nat, classify b ≠ Action.quit) ∧
    (∀ (p : Player) (b : Nat), (loopIter p b).2 ≠ Outcome.brk) :=
  ⟨by decide, by decide, classify_ne_quit, loopIter_ne_brk⟩

/-! ### Player movement -/

lemma move_geo (p : Player) (d : Direction) : ((p.move d).1).geo = p.geo := by
  cases d <;> simp only [Player.move] <;> split_ifs <;> rfl

lemma move_inBox (geo : Geometry) (p : Player) (hg : p.geo = geo)
    (h : inBox geo p) (d : Direction) : inBox geo ((p.move d).1) := by
  obtain ⟨h1, h2, h3, h4⟩ := h
  unfold inBox
  cases d <;> simp only [Player.move, hg] <;> split_ifs with hb <;>
    simp <;> omega

lemma walk_inBox (geo : Geometry) (ds : List Direction) :
    ∀ p : Player, p.geo = geo → inBox geo p → inBox geo (walk p ds) := by
  induction ds with
  | nil => intro p _ h; exact h
  | cons d ds ih =>
      intro p hg h
      have : walk p (d :: ds) = walk ((p.move d).1) ds := rfl
      rw [this]
      exact ih _ (by rw [move_geo, hg]) (move_inBox geo p hg h d)

lemma move_up_delta (p : Player) (hb : p.y ≠ 0) :
    p.move .up = ({ p with y := p.y - 1 }, true) := by
  simp only [Player.move]
  rw [if_neg hb]

lemma move_down_delta (p : Player) (hb : p.y ≠ (p.geo.height : Int) - 1) :
    p.move .down = ({ p with y := p.y + 1 }, true) := by
  simp only [Player.move]
  rw [if_neg hb]

lemma move_left_delta (p : Player) (hb : p.x ≠ 0) :
    p.move .left = ({ p with x := p.x - 1 }, true) := by
  simp only [Player.move]
  rw [if_neg hb]

lemma move_right_delta (p : Player) (hb : p.x ≠ (p.geo.width : Int) - 1) :
    p.move .right = ({ p with x := p.x + 1 }, true) := by
  simp only [Player.move]
  rw [if_neg hb]

lemma move_changed (p : Player) (d : Direction) :
    (p.move d).2 = true ↔ (p.move d).1 ≠ p := by
  cases d <;> simp only [Player.move] <;> split_ifs with hb <;> simp <;>
    intro he <;>
    first
      | (have h2 := congrArg Player.y he
         simp only at h2
         omega)
      | (have h2 := congrArg Player.x he
         simp only at h2
         omega)

lemma move_false_fix (p : Player) (d : Direction)
    (h : (p.move d).2 = false) : (p.move d).1 = p := by
  cases d <;> simp only [Player.move] at h ⊢ <;> split_ifs at h ⊢ <;> simp_all

/-- C5: `move` returns true iff the position changed; it returns false
(and leaves the player unchanged) exactly at the boundary tests `Y=0`
(Up), `Y=height-1` (Down), `X=0` (Left), `X=width-1` (Right); otherwise it
changes the corresponding coordinate by exactly 1; and any sequence of
moves from the start position (0,0) stays inside
`[0,width-1] × [0,height-1]`. -/
theorem claim5_move_spec (geo : Geometry)
    (hW : 1 ≤ geo.width) (hH : 1 ≤ geo.height) :
    (∀ (p : Player) (d : Direction), (p.move d).2 = true ↔ (p.move d).1 ≠ p) ∧
    (∀ p : Player, p.geo = geo →
      (((p.move .up).2 = false ↔ p.y = 0) ∧
        ((p.move .down).2 = false ↔ p.y = (geo.height : Int) - 1) ∧
        ((p.move .left).2 = false ↔ p.x = 0) ∧
        ((p.move .right).2 = false ↔ p.x = (geo.width : Int) - 1))) ∧
    (∀ (p : Player) (d : Direction), (p.move d).2 = false → (p.move d).1 = p) ∧
    (∀ p : Player,
      (p.y ≠ 0 → (p.move .up).1 = { p with y := p.y - 1 }) ∧
      (p.y ≠ (p.geo.height : Int) - 1 →
        (p.move .down).1 = { p with y := p.y + 1 }) ∧
      (p.x ≠ 0 → (p.move .left).1 = { p with x := p.x - 1 }) ∧
      (p.x ≠ (p.geo.width : Int) - 1 →
        (p.move .right).1 = { p with x := p.x + 1 })) ∧
    (∀ ds : List Direction, inBox geo (walk (startPlayer geo) ds)) := by
  refine ⟨move_changed, ?_, move_false_fix, ?_, ?_⟩
  · intro p hg
    refine ⟨?_, ?_, ?_, ?_⟩ <;> simp only [Player.move, hg] <;>
      split_ifs with hb <;> simp [hb]
  · intro p
    exact ⟨fun hb => by rw [move_up_delta p hb],
      fun hb => by rw [move_down_delta p hb],
      fun hb => by rw [move_left_delta p hb],
      fun hb => by rw [move_right_delta p hb]⟩
  · intro ds
    refine walk_inBox geo ds (startPlayer geo) rfl ?_
    unfold inBox startPlayer
    simp <;> omega

/-- Witness for C5: a concrete walk from (0,0) on the 5 by 4 sample
geometry stays inside the box. -/
theorem claim5_witness :
    inBox geoEx (walk (startPlayer geoEx)
      [.right, .down, .left, .up, .up, .right]) :=
  (claim5_move_spec geoEx (by decide) (by decide)).2.2.2.2
    [.right, .down, .left, .up, .up, .right]

/-! ### Moisture state machine -/

lemma moistureStep_mem (m : Int) (c : Cell) (h0 : 0 ≤ m) (h5 : m ≤ 5) :
    0 ≤ moistureStep m c ∧ moistureStep m c ≤ 5 := by
  unfold moistureStep
  split_ifs <;> omega

lemma moistureFold_mem (cells : List Cell) :
    ∀ m : Int, 0 ≤ m → m ≤ 5 →
      0 ≤ cells.foldl moistureStep m ∧ cells.foldl moistureStep m ≤ 5 := by
  induction cells with
  | nil => intro m h0 h5; exact ⟨h0, h5⟩
  | cons c cells ih =>
      intro m h0 h5
      have hs := moistureStep_mem m c h0 h5
      simpa using ih (moistureStep m c) hs.1 hs.2

/-- C6: starting from 0, the shoe-moisture counter stays in `[0,5]` along
every sequence of accepted moves; a move onto a cell whose status text
contains "stream" sets it to exactly 5 regardless of its prior value; a
move onto any other cell decrements it by exactly 1 while positive and
leaves it at its (nonpositive, in fact zero) value otherwise; and the
status text of every generated stream cell does contain "stream". -/
theorem claim6_moisture_spec :
    (∀ cells : List Cell, 0 ≤ moistureRun cells ∧ moistureRun cells ≤ 5) ∧
    (∀ (m : Int) (c : Cell), strContains c.statusLine streamWord = true →
      moistureStep m c = 5) ∧
    (∀ (m : Int) (c : Cell), strContains c.statusLine streamWord = false →
      0 < m → moistureStep m c = m - 1) ∧
    (∀ (m : Int) (c : Cell), strContains c.statusLine streamWord = false →
      m ≤ 0 → moistureStep m c = m) ∧
    (∀ (geo : Geometry) (t : Nat),
      strContains (render geo (.stream t)).statusLine streamWord = true) := by
  refine ⟨?_, ?_, ?_, ?_, ?_⟩
  · intro cells
    exact moistureFold_mem cells 0 le_rfl (by omega)
  · intro m c h
    unfold moistureStep
    rw [h]
    simp
  · intro m c h hm
    unfold moistureStep
    rw [h]
    simp [hm]
  · intro m c h hm
    unfold moistureStep
    rw [h]
    simp
    omega
  · intro geo t
    show strContains "You're standing in a shallow stream. It's refreshing."
      streamWord = true
    decide

/-- Witness for C6: stepping onto a stream cell saturates the counter at
5, a non-stream step decrements it, a non-stream step at 0 leaves it at 0,
and a concrete run stays inside [0,5]. -/
theorem claim6_witness :
    moistureStep 3 (render geoEx (CellKind.stream 0)) = 5 ∧
    moistureStep 3 (render geoEx CellKind.grass) = 3 - 1 ∧
    moistureStep 0 (render geoEx CellKind.grass) = 0 ∧
    (0 ≤ moistureRun [render geoEx (CellKind.stream 0),
        render geoEx CellKind.grass] ∧
      moistureRun [render geoEx (CellKind.stream 0),
        render geoEx CellKind.grass] ≤ 5) :=
  ⟨claim6_moisture_spec.2.1 3 (render geoEx (CellKind.stream 0)) (by decide),
    claim6_moisture_spec.2.2.1 3 (render geoEx CellKind.grass) (by decide)
      (by norm_num),
    claim6_moisture_spec.2.2.2.1 0 (render geoEx CellKind.grass) (by decide)
      le_rfl,
    claim6_moisture_spec.1 [render geoEx (CellKind.stream 0),
      render geoEx CellKind.grass]⟩

/-! ### Seed derivation -/


lemma isDigit_toNat {c : Char} (h : c.isDigit = true) :
    48 ≤ c.toNat ∧ c.toNat ≤ 57 := by
  simp [Char.isDigit] at h
  exact h

lemma digitChar_isDigit {d : Nat} (h : d < 10) : (digitChar d).isDigit = true := by
  interval_cases d <;> decide

lemma natDecimal_digits (n : Nat) : ∀ c ∈ natDecimal n, c.isDigit = true := by
  unfold natDecimal
  split
  · intro c hc
    simp at hc
    subst hc
    decide
  · intro c hc
    simp only [List.mem_map, List.mem_reverse] at hc
    obtain ⟨d, hd, rfl⟩ := hc
    exact digitChar_isDigit (Nat.digits_lt_base (by norm_num) hd)

lemma digitStringL_aux (cs : List Char) :
    ∀ acc : List Char, (∀ c ∈ acc, c.isDigit = true) →
      ∀ c ∈ cs.foldl (fun acc c => acc ++ natDecimal c.toNat) acc,
        c.isDigit = true := by
  induction cs with
  | nil => intro acc h; exact h
  | cons a cs ih =>
      intro acc h
      refine ih (acc ++ natDecimal a.toNat) ?_
      intro c hc
      rcases List.mem_append.mp hc with h1 | h1
      · exact h c h1
      · exact natDecimal_digits _ c h1

lemma digitStringL_digits (cs : List Char) :
    ∀ c ∈ digitStringL cs, c.isDigit = true :=
  digitStringL_aux cs [] (by intro c hc; simp at hc)

lemma digit_foldl_bound (l : List Char) :
    ∀ a : Int, (∀ c ∈ l, c.isDigit = true) → 0 ≤ a →
      0 ≤ l.foldl (fun a c => a * 10 + ((c.toNat : Int) - 48)) a ∧
        l.foldl (fun a c => a * 10 + ((c.toNat : Int) - 48)) a <
          (a + 1) * 10 ^ l.length := by
  induction l with
  | nil => intro a _ ha; simp; omega
  | cons c t ih =>
      intro a hd ha
      have hc := isDigit_toNat (hd c (by simp))
      have hstep : (0 : Int) ≤ a * 10 + ((c.toNat : Int) - 48) := by
        have : (48 : Int) ≤ (c.toNat : Int) := by exact_mod_cast hc.1
        nlinarith
      have ht : ∀ x ∈ t, x.isDigit = true := fun x hx => hd x (by simp [hx])
      obtain ⟨h1, h2⟩ := ih (a * 10 + ((c.toNat : Int) - 48)) ht hstep
      refine ⟨by simpa using h1, ?_⟩
      have hlt : a * 10 + ((c.toNat : Int) - 48) + 1 ≤ (a + 1) * 10 := by
        have : (c.toNat : Int) ≤ 57 := by exact_mod_cast hc.2
        nlinarith
      calc (c :: t).foldl (fun a c => a * 10 + ((c.toNat : Int) - 48)) a
          = t.foldl (fun a c => a * 10 + ((c.toNat : Int) - 48))
              (a * 10 + ((c.toNat : Int) - 48)) := by simp
        _ < (a * 10 + ((c.toNat : Int) - 48) + 1) * 10 ^ t.length := h2
        _ ≤ ((a + 1) * 10) * 10 ^ t.length := by
              have h10 : (0 : Int) < 10 ^ t.length := by positivity
              nlinarith
        _ = (a + 1) * 10 ^ (c :: t).length := by
              simp [pow_succ]
              ring

/-- C8: `computeSeed` succeeds exactly when the concatenated code-point
digit string has at least 10 digits, and then returns the base-10 value of
its first 10 digits (a pure function of the name, hence the same name
always yields the same seed); with fewer than 10 digits it panics
(`none`). -/
theorem claim8_computeSeed_spec (s : String) :
    computeSeed s =
      if 10 ≤ (digitStringL s.toList).length then some (seedSpecValue s)
      else none := by
  unfold computeSeed seedSpecValue
  by_cases h : (digitStringL s.toList).length < 10
  · rw [if_pos h, if_neg (by omega)]
  · rw [if_neg h, if_pos (by omega)]
    unfold parseIntL
    have hlen : ((digitStringL s.toList).take 10).length = 10 := by
      rw [List.length_take]
      omega
    rw [if_neg (by omega)]
    have hdig : ∀ c ∈ (digitStringL s.toList).take 10, c.isDigit = true :=
      fun c hc => digitStringL_digits s.toList c (List.take_subset _ _ hc)
    rw [if_pos (List.all_eq_true.mpr hdig)]
    obtain ⟨h0, hb⟩ := digit_foldl_bound _ 0 hdig le_rfl
    have hcond :
        ((digitStringL s.toList).take 10).foldl
          (fun a c => a * 10 + ((c.toNat : Int) - 48)) 0 < 2 ^ 63 := by
      calc ((digitStringL s.toList).take 10).foldl
            (fun a c => a * 10 + ((c.toNat : Int) - 48)) 0
          < ((0 : Int) + 1) * 10 ^ ((digitStringL s.toList).take 10).length := hb
        _ ≤ 2 ^ 63 := by rw [hlen]; norm_num
    rw [if_pos hcond]
/-! ### Generator: branch analysis of one cell -/

lemma plantCell_cases {geo : Geometry} {commits : List Commit} {f : Nat → ℚ}
    {y x : Nat} {st : GenState} {c : CellKind} {st' : GenState}
    (h : plantCell geo commits f y x st = some (c, st')) :
    (borderCond geo y x ∧ c = .tree ∧ st' = st)
    ∨ (¬ borderCond geo y x ∧ (x : Int) = st.streamIx ∧
        c = .stream st.tint ∧
        st' = { st with tint := st.tint + 15,
                        streamIx := streamUpd geo (f st.k) st.streamIx,
                        k := st.k + 1 })
    ∨ (¬ borderCond geo y x ∧ (x : Int) ≠ st.streamIx ∧ y = 0 ∧
        (x < geo.width / 2 ∨ geo.width / 2 < x) ∧ c = .wildflower ∧ st' = st)
    ∨ (¬ borderCond geo y x ∧ (x : Int) ≠ st.streamIx ∧ y = 0 ∧
        x = geo.width / 2 ∧ c = .sign ∧ st' = st)
    ∨ (¬ borderCond geo y x ∧ (x : Int) ≠ st.streamIx ∧ y ≠ 0 ∧
        (st.cellIx : Int) = (commits.length : Int) - 1 ∧ c = .grass ∧ st' = st)
    ∨ (¬ borderCond geo y x ∧ (x : Int) ≠ st.streamIx ∧ y ≠ 0 ∧
        (st.cellIx : Int) ≠ (commits.length : Int) - 1 ∧
        f st.k ≤ geo.density ∧
        (∃ cm, commits.get? st.cellIx = some cm ∧ c = .flower cm) ∧
        st' = { st with cellIx := st.cellIx + 1, k := st.k + 1 })
    ∨ (¬ borderCond geo y x ∧ (x : Int) ≠ st.streamIx ∧ y ≠ 0 ∧
        (st.cellIx : Int) ≠ (commits.length : Int) - 1 ∧
        ¬ (f st.k ≤ geo.density) ∧ c = .grass ∧
        st' = { st with k := st.k + 1 }) := by
  unfold plantCell at h
  split_ifs at h with hb hs hw hg hc hd
  · simp only [Option.some.injEq, Prod.mk.injEq] at h
    exact Or.inl ⟨hb, h.1.symm, h.2.symm⟩
  · simp only [Option.some.injEq, Prod.mk.injEq] at h
    exact Or.inr (Or.inl ⟨hb, hs, h.1.symm, h.2.symm⟩)
  · simp only [Option.some.injEq, Prod.mk.injEq] at h
    exact Or.inr (Or.inr (Or.inl ⟨hb, hs, hw.1, hw.2, h.1.symm, h.2.symm⟩))
  · simp only [Option.some.injEq, Prod.mk.injEq] at h
    exact Or.inr (Or.inr (Or.inr (Or.inl ⟨hb, hs, hg.1, hg.2, h.1.symm, h.2.symm⟩)))
  · simp only [Option.some.injEq, Prod.mk.injEq] at h
    have hy : y ≠ 0 := by
      intro hy0
      rcases Nat.lt_trichotomy x (geo.width / 2) with ht | ht | ht
      · exact hw ⟨hy0, Or.inl ht⟩
      · exact hg ⟨hy0, ht⟩
      · exact hw ⟨hy0, Or.inr ht⟩
    exact Or.inr (Or.inr (Or.inr (Or.inr (Or.inl
      ⟨hb, hs, hy, hc, h.1.symm, h.2.symm⟩))))
  · have hy : y ≠ 0 := by
      intro hy0
      rcases Nat.lt_trichotomy x (geo.width / 2) with ht | ht | ht
      · exact hw ⟨hy0, Or.inl ht⟩
      · exact hg ⟨hy0, ht⟩
      · exact hw ⟨hy0, Or.inr ht⟩
    rcases hget : commits.get? st.cellIx with _ | cm <;> rw [hget] at h
    · exact absurd h (by simp)
    · simp only [Option.some.injEq, Prod.mk.injEq] at h
      exact Or.inr (Or.inr (Or.inr (Or.inr (Or.inr (Or.inl
        ⟨hb, hs, hy, hc, hd, ⟨cm, rfl, h.1.symm⟩, h.2.symm⟩)))))
  · have hy : y ≠ 0 := by
      intro hy0
      rcases Nat.lt_trichotomy x (geo.width / 2) with ht | ht | ht
      · exact hw ⟨hy0, Or.inl ht⟩
      · exact hg ⟨hy0, ht⟩
      · exact hw ⟨hy0, Or.inr ht⟩
    simp only [Option.some.injEq, Prod.mk.injEq] at h
    exact Or.inr (Or.inr (Or.inr (Or.inr (Or.inr (Or.inr
      ⟨hb, hs, hy, hc, hd, h.1.symm, h.2.symm⟩)))))

lemma plantCell_border {geo : Geometry} {commits : List Commit} {f : Nat → ℚ}
    {y x : Nat} {st : GenState} (hb : borderCond geo y x) :
    plantCell geo commits f y x st = some (.tree, st) := by
  unfold plantCell
  rw [if_pos hb]

lemma plantCell_streamIx {geo : Geometry} {commits : List Commit}
    {f : Nat → ℚ} {y x : Nat} {st : GenState} {c : CellKind} {st' : GenState}
    (h : plantCell geo commits f y x st = some (c, st')) :
    (st'.streamIx = st.streamIx ∧ st'.tint = st.tint ∧ ∀ t, c ≠ .stream t)
    ∨ ((x : Int) = st.streamIx ∧ ¬ borderCond geo y x ∧
        c = .stream st.tint ∧
        st'.streamIx = streamUpd geo (f st.k) st.streamIx) := by
  rcases plantCell_cases h with
    ⟨_, hc, hst⟩ | ⟨hb, hs, hc, hst⟩ | ⟨_, _, _, _, hc, hst⟩ |
    ⟨_, _, _, _, hc, hst⟩ | ⟨_, _, _, _, hc, hst⟩ |
    ⟨_, _, _, _, _, ⟨cm, _, hc⟩, hst⟩ | ⟨_, _, _, _, _, hc, hst⟩ <;>
    subst hst <;> subst hc <;> simp_all

lemma plantCell_cellIx {geo : Geometry} {commits : List Commit}
    {f : Nat → ℚ} {y x : Nat} {st : GenState} {c : CellKind} {st' : GenState}
    (h : plantCell geo commits f y x st = some (c, st')) :
    (flowerOf c = none ∧ st'.cellIx = st.cellIx)
    ∨ (∃ cm, commits.get? st.cellIx = some cm ∧ c = .flower cm ∧
        (st.cellIx : Int) ≠ (commits.length : Int) - 1 ∧
        st'.cellIx = st.cellIx + 1) := by
  rcases plantCell_cases h with
    ⟨_, hc, hst⟩ | ⟨_, _, hc, hst⟩ | ⟨_, _, _, _, hc, hst⟩ |
    ⟨_, _, _, _, hc, hst⟩ | ⟨_, _, _, _, hc, hst⟩ |
    ⟨_, _, _, hne, _, ⟨cm, hget, hc⟩, hst⟩ | ⟨_, _, _, _, _, hc, hst⟩ <;>
    subst hst <;> subst hc <;> simp_all [flowerOf]

lemma plantCell_k {geo : Geometry} {commits : List Commit}
    {f : Nat → ℚ} {y x : Nat} {st : GenState} {c : CellKind} {st' : GenState}
    (h : plantCell geo commits f y x st = some (c, st')) :
    st.k ≤ st'.k ∧ st'.k ≤ st.k + 1 := by
  rcases plantCell_cases h with
    ⟨_, hc, hst⟩ | ⟨_, _, hc, hst⟩ | ⟨_, _, _, _, hc, hst⟩ |
    ⟨_, _, _, _, hc, hst⟩ | ⟨_, _, _, _, hc, hst⟩ |
    ⟨_, _, _, _, _, ⟨cm, hget, hc⟩, hst⟩ | ⟨_, _, _, _, _, hc, hst⟩ <;>
    subst hst <;> simp <;> omega

lemma plantCell_isSome {geo : Geometry} {commits : List Commit}
    {f : Nat → ℚ} {y x : Nat} {st : GenState}
    (hinv : st.cellIx < commits.length) :
    ∃ c st', plantCell geo commits f y x st = some (c, st') ∧
      st'.cellIx < commits.length := by
  unfold plantCell
  split_ifs with hb hs hw hg hc hd
  · exact ⟨_, _, rfl, hinv⟩
  · exact ⟨_, _, rfl, hinv⟩
  · exact ⟨_, _, rfl, hinv⟩
  · exact ⟨_, _, rfl, hinv⟩
  · exact ⟨_, _, rfl, hinv⟩
  · rcases hget : commits.get? st.cellIx with _ | cm
    · rw [List.get?_eq_none] at hget
      omega
    · refine ⟨_, _, rfl, ?_⟩
      simp only []
      omega
  · exact ⟨_, _, rfl, hinv⟩

lemma plantCell_agree {geo : Geometry} {commits : List Commit}
    {f1 f2 : Nat → ℚ} {y x : Nat} {st : GenState}
    (hagree : f1 st.k = f2 st.k) :
    plantCell geo commits f1 y x st = plantCell geo commits f2 y x st := by
  unfold plantCell
  rw [hagree]

/-! ### Generator: the cell loop (one row) -/

lemma plantRowAux_length {geo : Geometry} {commits : List Commit}
    {f : Nat → ℚ} {y : Nat} :
    ∀ (fuel x : Nat) (st : GenState) {row : List CellKind} {st' : GenState},
      plantRowAux geo commits f y x fuel st = some (row, st') →
      row.length = fuel := by
  intro fuel
  induction fuel with
  | zero =>
      intro x st row st' h
      simp only [plantRowAux, Option.some.injEq, Prod.mk.injEq] at h
      obtain ⟨h1, h2⟩ := h
      subst h1
      rfl
  | succ n ih =>
      intro x st row st' h
      rw [plantRowAux] at h
      rcases hc : plantCell geo commits f y x st with _ | ⟨c, st1⟩ <;>
        rw [hc] at h <;> dsimp only at h
      · exact absurd h (by simp)
      · rcases hr : plantRowAux geo commits f y (x + 1) n st1 with _ | ⟨row1, st2⟩ <;>
          rw [hr] at h <;> dsimp only at h
        · exact absurd h (by simp)
        · simp only [Option.some.injEq, Prod.mk.injEq] at h
          obtain ⟨h1, h2⟩ := h
          subst h1
          simp [ih (x + 1) st1 hr]

lemma plantRowAux_get {geo : Geometry} {commits : List Commit}
    {f : Nat → ℚ} {y : Nat} :
    ∀ (fuel x : Nat) (st : GenState) {row : List CellKind} {st' : GenState},
      plantRowAux geo commits f y x fuel st = some (row, st') →
      ∀ i, i < fuel →
        ∃ c st1 st2, row.get? i = some c ∧
          plantCell geo commits f y (x + i) st1 = some (c, st2) := by
  intro fuel
  induction fuel with
  | zero =>
      intro x st row st' _ i hi
      omega
  | succ n ih =>
      intro x st row st' h i hi
      rw [plantRowAux] at h
      rcases hc : plantCell geo commits f y x st with _ | ⟨c, st1⟩ <;>
        rw [hc] at h <;> dsimp only at h
      · exact absurd h (by simp)
      · rcases hr : plantRowAux geo commits f y (x + 1) n st1 with _ | ⟨row1, st2⟩ <;>
          rw [hr] at h <;> dsimp only at h
        · exact absurd h (by simp)
        · simp only [Option.some.injEq, Prod.mk.injEq] at h
          obtain ⟨h1, h2⟩ := h
          subst h1
          match i with
          | 0 => exact ⟨c, st, st1, rfl, by simpa using hc⟩
          | i + 1 =>
              obtain ⟨c2, stA, stB, hget, hcell⟩ := ih (x + 1) st1 hr i (by omega)
              refine ⟨c2, stA, stB, by simpa using hget, ?_⟩
              have hx : x + 1 + i = x + (i + 1) := by omega
              rw [← hx]
              exact hcell

lemma plantRowAux_cellIx {geo : Geometry} {commits : List Commit}
    {f : Nat → ℚ} {y : Nat} :
    ∀ (fuel x : Nat) (st : GenState) {row : List CellKind} {st' : GenState},
      plantRowAux geo commits f y x fuel st = some (row, st') →
      st.cellIx ≤ st'.cellIx ∧
        rowFlowers row = (commits.drop st.cellIx).take (st'.cellIx - st.cellIx) := by
  intro fuel
  induction fuel with
  | zero =>
      intro x st row st' h
      simp only [plantRowAux, Option.some.injEq, Prod.mk.injEq] at h
      obtain ⟨h1, h2⟩ := h
      subst h1
      subst h2
      simp [rowFlowers]
  | succ n ih =>
      intro x st row st' h
      rw [plantRowAux] at h
      rcases hc : plantCell geo commits f y x st with _ | ⟨c, st1⟩ <;>
        rw [hc] at h <;> dsimp only at h
      · exact absurd h (by simp)
      · rcases hr : plantRowAux geo commits f y (x + 1) n st1 with _ | ⟨row1, st2⟩ <;>
          rw [hr] at h <;> dsimp only at h
        · exact absurd h (by simp)
        · simp only [Option.some.injEq, Prod.mk.injEq] at h
          obtain ⟨h1, h2⟩ := h
          subst h1
          subst h2
          obtain ⟨hmono, hflow⟩ := ih (x + 1) st1 hr
          rcases plantCell_cellIx hc with ⟨hnone, heq⟩ | ⟨cm, hget, hcm, hne, hinc⟩
          · refine ⟨by omega, ?_⟩
            rw [heq] at hmono hflow
            simpa [rowFlowers, List.filterMap_cons, hnone] using hflow
          · subst hcm
            obtain ⟨hlt, hv⟩ := List.get?_eq_some.mp hget
            refine ⟨by omega, ?_⟩
            rw [hinc] at hmono hflow
            have hdrop : commits.drop st.cellIx =
                cm :: commits.drop (st.cellIx + 1) := by
              rw [List.drop_eq_get_cons hlt, hv]
            have harith : st2.cellIx - st.cellIx =
                (st2.cellIx - (st.cellIx + 1)) + 1 := by omega
            rw [hdrop, harith]
            simp [rowFlowers, List.filterMap_cons, flowerOf] at hflow ⊢
            exact hflow

lemma plantRowAux_isSome {geo : Geometry} {commits : List Commit}
    {f : Nat → ℚ} {y : Nat} :
    ∀ (fuel x : Nat) (st : GenState), st.cellIx < commits.length →
      ∃ row st', plantRowAux geo commits f y x fuel st = some (row, st') ∧
        st'.cellIx < commits.length := by
  intro fuel
  induction fuel with
  | zero =>
      intro x st hinv
      exact ⟨[], st, rfl, hinv⟩
  | succ n ih =>
      intro x st hinv
      obtain ⟨c, st1, hc, hinv1⟩ := plantCell_isSome (f := f) (y := y) (x := x) hinv
      obtain ⟨row1, st2, hr, hinv2⟩ := ih (x + 1) st1 hinv1
      refine ⟨c :: row1, st2, ?_, hinv2⟩
      rw [plantRowAux, hc]
      dsimp only
      rw [hr]

lemma plantRowAux_k {geo : Geometry} {commits : List Commit}
    {f : Nat → ℚ} {y : Nat} :
    ∀ (fuel x : Nat) (st : GenState) {row : List CellKind} {st' : GenState},
      plantRowAux geo commits f y x fuel st = some (row, st') →
      st.k ≤ st'.k ∧ st'.k ≤ st.k + fuel := by
  intro fuel
  induction fuel with
  | zero =>
      intro x st row st' h
      simp only [plantRowAux, Option.some.injEq, Prod.mk.injEq] at h
      obtain ⟨h1, h2⟩ := h
      subst h2
      omega
  | succ n ih =>
      intro x st row st' h
      rw [plantRowAux] at h
      rcases hc : plantCell geo commits f y x st with _ | ⟨c, st1⟩ <;>
        rw [hc] at h <;> dsimp only at h
      · exact absurd h (by simp)
      · rcases hr : plantRowAux geo commits f y (x + 1) n st1 with _ | ⟨row1, st2⟩ <;>
          rw [hr] at h <;> dsimp only at h
        · exact absurd h (by simp)
        · simp only [Option.some.injEq, Prod.mk.injEq] at h
          obtain ⟨h1, h2⟩ := h
          subst h2
          have hk1 := plantCell_k hc
          have hk2 := ih (x + 1) st1 hr
          omega

lemma plantRowAux_agree {geo : Geometry} {commits : List Commit}
    {f1 f2 : Nat → ℚ} {y : Nat} :
    ∀ (fuel x : Nat) (st : GenState),
      (∀ j, st.k ≤ j → j < st.k + fuel → f1 j = f2 j) →
      plantRowAux geo commits f1 y x fuel st =
        plantRowAux geo commits f2 y x fuel st := by
  intro fuel
  induction fuel with
  | zero => intro x st _; rfl
  | succ n ih =>
      intro x st hagree
      have hcell : plantCell geo commits f1 y x st =
          plantCell geo commits f2 y x st :=
        plantCell_agree (hagree st.k (le_refl _) (by omega))
      rw [plantRowAux, plantRowAux, hcell]
      rcases hc : plantCell geo commits f2 y x st with _ | ⟨c, st1⟩
      · rfl
      · have hk := plantCell_k (f := f2) hc
        have hrec : plantRowAux geo commits f1 y (x + 1) n st1 =
            plantRowAux geo commits f2 y (x + 1) n st1 := by
          refine ih (x + 1) st1 ?_
          intro j hj1 hj2
          exact hagree j (by omega) (by omega)
        dsimp only
        rw [hrec]

/-! ### Generator: the row loop (the grid) -/

lemma flowersOf_cons (row : List CellKind) (rows : List (List CellKind)) :
    flowersOf (row :: rows) = rowFlowers row ++ flowersOf rows := by
  simp [flowersOf, rowFlowers, List.filterMap_append]

lemma plantRowsAux_length {geo : Geometry} {commits : List Commit}
    {f : Nat → ℚ} :
    ∀ (fuel y : Nat) (st : GenState) {rows : List (List CellKind)}
      {st' : GenState},
      plantRowsAux geo commits f y fuel st = some (rows, st') →
      rows.length ≤ fuel := by
  intro fuel
  induction fuel with
  | zero =>
      intro y st rows st' h
      simp only [plantRowsAux, Option.some.injEq, Prod.mk.injEq] at h
      obtain ⟨h1, h2⟩ := h
      subst h1
      simp
  | succ n ih =>
      intro y st rows st' h
      rw [plantRowsAux] at h
      split_ifs at h with hbr
      · simp only [Option.some.injEq, Prod.mk.injEq] at h
        obtain ⟨h1, h2⟩ := h
        subst h1
        simp
      · rcases hc : plantRowAux geo commits f y 0 geo.width st with _ | ⟨row, st1⟩ <;>
          rw [hc] at h <;> dsimp only at h
        · exact absurd h (by simp)
        · rcases hr : plantRowsAux geo commits f (y + 1) n st1 with _ | ⟨rows1, st2⟩ <;>
            rw [hr] at h <;> dsimp only at h
          · exact absurd h (by simp)
          · simp only [Option.some.injEq, Prod.mk.injEq] at h
            obtain ⟨h1, h2⟩ := h
            subst h1
            have := ih (y + 1) st1 hr
            simp
            omega

lemma plantRowsAux_get {geo : Geometry} {commits : List Commit}
    {f : Nat → ℚ} :
    ∀ (fuel y : Nat) (st : GenState) {rows : List (List CellKind)}
      {st' : GenState},
      plantRowsAux geo commits f y fuel st = some (rows, st') →
      ∀ j, j < rows.length →
        ∃ st1 st2 row, rows.get? j = some row ∧
          plantRowAux geo commits f (y + j) 0 geo.width st1 = some (row, st2) := by
  intro fuel
  induction fuel with
  | zero =>
      intro y st rows st' h j hj
      simp only [plantRowsAux, Option.some.injEq, Prod.mk.injEq] at h
      obtain ⟨h1, h2⟩ := h
      subst h1
      simp at hj
  | succ n ih =>
      intro y st rows st' h j hj
      rw [plantRowsAux] at h
      split_ifs at h with hbr
      · simp only [Option.some.injEq, Prod.mk.injEq] at h
        obtain ⟨h1, h2⟩ := h
        subst h1
        simp at hj
      · rcases hc : plantRowAux geo commits f y 0 geo.width st with _ | ⟨row, st1⟩ <;>
          rw [hc] at h <;> dsimp only at h
        · exact absurd h (by simp)
        · rcases hr : plantRowsAux geo commits f (y + 1) n st1 with _ | ⟨rows1, st2⟩ <;>
            rw [hr] at h <;> dsimp only at h
          · exact absurd h (by simp)
          · simp only [Option.some.injEq, Prod.mk.injEq] at h
            obtain ⟨h1, h2⟩ := h
            subst h1
            match j with
            | 0 => exact ⟨st, st1, row, rfl, by simpa using hc⟩
            | j + 1 =>
                simp only [List.length_cons] at hj
                obtain ⟨stA, stB, row2, hget, hrow⟩ :=
                  ih (y + 1) st1 hr j (by omega)
                refine ⟨stA, stB, row2, by simpa using hget, ?_⟩
                have hy : y + 1 + j = y + (j + 1) := by omega
                rw [← hy]
                exact hrow

lemma plantRowsAux_cellIx {geo : Geometry} {commits : List Commit}
    {f : Nat → ℚ} :
    ∀ (fuel y : Nat) (st : GenState) {rows : List (List CellKind)}
      {st' : GenState},
      plantRowsAux geo commits f y fuel st = some (rows, st') →
      st.cellIx ≤ st'.cellIx ∧
        flowersOf rows =
          (commits.drop st.cellIx).take (st'.cellIx - st.cellIx) := by
  intro fuel
  induction fuel with
  | zero =>
      intro y st rows st' h
      simp only [plantRowsAux, Option.some.injEq, Prod.mk.injEq] at h
      obtain ⟨h1, h2⟩ := h
      subst h1
      subst h2
      simp [flowersOf]
  | succ n ih =>
      intro y st rows st' h
      rw [plantRowsAux] at h
      split_ifs at h with hbr
      · simp only [Option.some.injEq, Prod.mk.injEq] at h
        obtain ⟨h1, h2⟩ := h
        subst h1
        subst h2
        simp [flowersOf]
      · rcases hc : plantRowAux geo commits f y 0 geo.width st with _ | ⟨row, st1⟩ <;>
          rw [hc] at h <;> dsimp only at h
        · exact absurd h (by simp)
        · rcases hr : plantRowsAux geo commits f (y + 1) n st1 with _ | ⟨rows1, st2⟩ <;>
            rw [hr] at h <;> dsimp only at h
          · exact absurd h (by simp)
          · simp only [Option.some.injEq, Prod.mk.injEq] at h
            obtain ⟨h1, h2⟩ := h
            subst h1
            subst h2
            obtain ⟨hm1, hrow⟩ := plantRowAux_cellIx geo.width 0 st hc
            obtain ⟨hm2, hrest⟩ := ih (y + 1) st1 hr
            refine ⟨by omega, ?_⟩
            rw [flowersOf_cons, hrow, hrest]
            have h1 : st2.cellIx - st.cellIx =
                (st1.cellIx - st.cellIx) + (st2.cellIx - st1.cellIx) := by omega
            rw [h1, List.take_add]
            congr 1
            rw [List.drop_drop]
            have h2 : st.cellIx + (st1.cellIx - st.cellIx) = st1.cellIx := by
              omega
            rw [h2]

lemma plantRowsAux_break {geo : Geometry} {commits : List Commit}
    {f : Nat → ℚ} :
    ∀ (fuel y : Nat) (st : GenState) {rows : List (List CellKind)}
      {st' : GenState},
      plantRowsAux geo commits f y fuel st = some (rows, st') →
      rows.length < fuel →
      (st'.cellIx : Int) = (commits.length : Int) - 1 := by
  intro fuel
  induction fuel with
  | zero =>
      intro y st rows st' h hlt
      omega
  | succ n ih =>
      intro y st rows st' h hlt
      rw [plantRowsAux] at h
      split_ifs at h with hbr
      · simp only [Option.some.injEq, Prod.mk.injEq] at h
        obtain ⟨h1, h2⟩ := h
        subst h2
        exact hbr
      · rcases hc : plantRowAux geo commits f y 0 geo.width st with _ | ⟨row, st1⟩ <;>
          rw [hc] at h <;> dsimp only at h
        · exact absurd h (by simp)
        · rcases hr : plantRowsAux geo commits f (y + 1) n st1 with _ | ⟨rows1, st2⟩ <;>
            rw [hr] at h <;> dsimp only at h
          · exact absurd h (by simp)
          · simp only [Option.some.injEq, Prod.mk.injEq] at h
            obtain ⟨h1, h2⟩ := h
            subst h1
            subst h2
            refine ih (y + 1) st1 hr ?_
            simp only [List.length_cons] at hlt
            omega

lemma plantRowsAux_isSome {geo : Geometry} {commits : List Commit}
    {f : Nat → ℚ} :
    ∀ (fuel y : Nat) (st : GenState), st.cellIx < commits.length →
      ∃ rows st', plantRowsAux geo commits f y fuel st = some (rows, st') ∧
        st'.cellIx < commits.length := by
  intro fuel
  induction fuel with
  | zero =>
      intro y st hinv
      exact ⟨[], st, rfl, hinv⟩
  | succ n ih =>
      intro y st hinv
      by_cases hbr : (st.cellIx : Int) = (commits.length : Int) - 1
      · exact ⟨[], st, by rw [plantRowsAux, if_pos hbr], hinv⟩
      · obtain ⟨row, st1, hc, hinv1⟩ :=
          plantRowAux_isSome (f := f) (y := y) geo.width 0 st hinv
        obtain ⟨rows1, st2, hr, hinv2⟩ := ih (y + 1) st1 hinv1
        refine ⟨row :: rows1, st2, ?_, hinv2⟩
        rw [plantRowsAux, if_neg hbr, hc]
        dsimp only
        rw [hr]

lemma plantRowsAux_k {geo : Geometry} {commits : List Commit}
    {f : Nat → ℚ} :
    ∀ (fuel y : Nat) (st : GenState) {rows : List (List CellKind)}
      {st' : GenState},
      plantRowsAux geo commits f y fuel st = some (rows, st') →
      st.k ≤ st'.k ∧ st'.k ≤ st.k + fuel * geo.width := by
  intro fuel
  induction fuel with
  | zero =>
      intro y st rows st' h
      simp only [plantRowsAux, Option.some.injEq, Prod.mk.injEq] at h
      obtain ⟨h1, h2⟩ := h
      subst h2
      omega
  | succ n ih =>
      intro y st rows st' h
      rw [plantRowsAux] at h
      split_ifs at h with hbr
      · simp only [Option.some.injEq, Prod.mk.injEq] at h
        obtain ⟨h1, h2⟩ := h
        subst h2
        omega
      · rcases hc : plantRowAux geo commits f y 0 geo.width st with _ | ⟨row, st1⟩ <;>
          rw [hc] at h <;> dsimp only at h
        · exact absurd h (by simp)
        · rcases hr : plantRowsAux geo commits f (y + 1) n st1 with _ | ⟨rows1, st2⟩ <;>
            rw [hr] at h <;> dsimp only at h
          · exact absurd h (by simp)
          · simp only [Option.some.injEq, Prod.mk.injEq] at h
            obtain ⟨h1, h2⟩ := h
            subst h2
            have hk1 := plantRowAux_k geo.width 0 st hc
            have hk2 := ih (y + 1) st1 hr
            have : (n + 1) * geo.width = geo.width + n * geo.width := by ring
            omega

lemma plantRowsAux_agree {geo : Geometry} {commits : List Commit}
    {f1 f2 : Nat → ℚ} :
    ∀ (fuel y : Nat) (st : GenState),
      (∀ j, st.k ≤ j → j < st.k + fuel * geo.width → f1 j = f2 j) →
      plantRowsAux geo commits f1 y fuel st =
        plantRowsAux geo commits f2 y fuel st := by
  intro fuel
  induction fuel with
  | zero => intro y st _; rfl
  | succ n ih =>
      intro y st hagree
      rw [plantRowsAux, plantRowsAux]
      split_ifs with hbr
      · rfl
      · have hrow : plantRowAux geo commits f1 y 0 geo.width st =
            plantRowAux geo commits f2 y 0 geo.width st := by
          refine plantRowAux_agree geo.width 0 st ?_
          intro j hj1 hj2
          refine hagree j hj1 (by nlinarith)
        rw [hrow]
        rcases hc : plantRowAux geo commits f2 y 0 geo.width st with _ | ⟨row, st1⟩
        · rfl
        · have hk := plantRowAux_k (f := f2) geo.width 0 st hc
          dsimp only
          have hrec : plantRowsAux geo commits f1 (y + 1) n st1 =
              plantRowsAux geo commits f2 (y + 1) n st1 := by
            refine ih (y + 1) st1 ?_
            intro j hj1 hj2
            refine hagree j (by omega) ?_
            have : (n + 1) * geo.width = geo.width + n * geo.width := by ring
            omega
          rw [hrec]

/-! ### Generator: stream-column lemmas -/

lemma streamUpd_le (geo : Geometry) (q : ℚ) (s : Int) (h : 0 ≤ s) :
    streamUpd geo q s ≤ s := by
  unfold streamUpd
  dsimp only
  split_ifs <;> omega

lemma streamFree_cons (c : CellKind) (row : List CellKind) :
    streamFree (c :: row) =
      ((match c with | .stream _ => false | _ => true) && streamFree row) := by
  simp [streamFree]

lemma plantRowAux_skipStream {geo : Geometry} {commits : List Commit}
    {f : Nat → ℚ} {y : Nat} :
    ∀ (fuel x : Nat) (st : GenState) {row : List CellKind} {st' : GenState},
      (∀ x', x ≤ x' → x' < x + fuel → (x' : Int) = st.streamIx →
        borderCond geo y x') →
      plantRowAux geo commits f y x fuel st = some (row, st') →
      st'.streamIx = st.streamIx ∧ streamFree row = true := by
  intro fuel
  induction fuel with
  | zero =>
      intro x st row st' _ h
      simp only [plantRowAux, Option.some.injEq, Prod.mk.injEq] at h
      obtain ⟨h1, h2⟩ := h
      subst h1
      subst h2
      exact ⟨rfl, rfl⟩
  | succ n ih =>
      intro x st row st' hb h
      rw [plantRowAux] at h
      rcases hc : plantCell geo commits f y x st with _ | ⟨c, st1⟩ <;>
        rw [hc] at h <;> dsimp only at h
      · exact absurd h (by simp)
      · rcases hr : plantRowAux geo commits f y (x + 1) n st1 with _ | ⟨row1, st2⟩ <;>
          rw [hr] at h <;> dsimp only at h
        · exact absurd h (by simp)
        · simp only [Option.some.injEq, Prod.mk.injEq] at h
          obtain ⟨h1, h2⟩ := h
          subst h1
          subst h2
          rcases plantCell_streamIx hc with ⟨hsame, htint, hns⟩ | ⟨hxs, hnb, _, _⟩
          · obtain ⟨hrec1, hrec2⟩ := ih (x + 1) st1 (by
              intro x' hx1 hx2 hx3
              rw [hsame] at hx3
              exact hb x' (by omega) (by omega) hx3) hr
            refine ⟨by rw [hrec1, hsame], ?_⟩
            rw [streamFree_cons, hrec2]
            rcases c with _ | t | _ | _ | _ | cm <;> simp_all
          · exact absurd (hb x (le_refl x) (by omega) hxs) hnb

lemma plantRowsAux_skipStream {geo : Geometry} {commits : List Commit}
    {f : Nat → ℚ} :
    ∀ (fuel y : Nat) (st : GenState) {rows : List (List CellKind)}
      {st' : GenState},
      1 ≤ y →
      (st.streamIx = 0 ∨ st.streamIx = (geo.width : Int) - 1 ∨
        st.streamIx = (geo.width : Int)) →
      plantRowsAux geo commits f y fuel st = some (rows, st') →
      st'.streamIx = st.streamIx ∧ rows.all streamFree = true := by
  intro fuel
  induction fuel with
  | zero =>
      intro y st rows st' _ _ h
      simp only [plantRowsAux, Option.some.injEq, Prod.mk.injEq] at h
      obtain ⟨h1, h2⟩ := h
      subst h1
      subst h2
      exact ⟨rfl, rfl⟩
  | succ n ih =>
      intro y st rows st' hy hs h
      rw [plantRowsAux] at h
      split_ifs at h with hbr
      · simp only [Option.some.injEq, Prod.mk.injEq] at h
        obtain ⟨h1, h2⟩ := h
        subst h1
        subst h2
        exact ⟨rfl, rfl⟩
      · rcases hc : plantRowAux geo commits f y 0 geo.width st with _ | ⟨row, st1⟩ <;>
          rw [hc] at h <;> dsimp only at h
        · exact absurd h (by simp)
        · rcases hr : plantRowsAux geo commits f (y + 1) n st1 with _ | ⟨rows1, st2⟩ <;>
            rw [hr] at h <;> dsimp only at h
          · exact absurd h (by simp)
          · simp only [Option.some.injEq, Prod.mk.injEq] at h
            obtain ⟨h1, h2⟩ := h
            subst h1
            subst h2
            have hskip := plantRowAux_skipStream geo.width 0 st (by
              intro x' _ hx2 hx3
              rcases hs with h0 | h0 | h0 <;> rw [h0] at hx3
              · have : x' = 0 := by omega
                subst this
                exact Or.inl ⟨by omega, Or.inl rfl⟩
              · exact Or.inl ⟨by omega, Or.inr hx3⟩
              · exact absurd hx3 (by omega)) hc
            obtain ⟨hrec1, hrec2⟩ := ih (y + 1) st1 (by omega)
              (by rw [hskip.1]; exact hs) hr
            refine ⟨by rw [hrec1, hskip.1], ?_⟩
            simp [hskip.2, hrec2]

lemma plantRowAux_placeStream {geo : Geometry} {commits : List Commit}
    {f : Nat → ℚ} {y : Nat} :
    ∀ (fuel x : Nat) (st : GenState) (cI : Nat) {row : List CellKind}
      {st' : GenState},
      (cI : Int) = st.streamIx → x ≤ cI → cI < x + fuel →
      ¬ borderCond geo y cI →
      plantRowAux geo commits f y x fuel st = some (row, st') →
      row.get? (cI - x) = some (.stream st.tint) ∧
        ∃ k0, st.k ≤ k0 ∧
          st'.streamIx = streamUpd geo (f k0) st.streamIx := by
  intro fuel
  induction fuel with
  | zero =>
      intro x st cI row st' _ hx1 hx2 _ _
      omega
  | succ n ih =>
      intro x st cI row st' hcs hx1 hx2 hnb h
      rw [plantRowAux] at h
      rcases hc : plantCell geo commits f y x st with _ | ⟨c, st1⟩ <;>
        rw [hc] at h <;> dsimp only at h
      · exact absurd h (by simp)
      · rcases hr : plantRowAux geo commits f y (x + 1) n st1 with _ | ⟨row1, st2⟩ <;>
          rw [hr] at h <;> dsimp only at h
        · exact absurd h (by simp)
        · simp only [Option.some.injEq, Prod.mk.injEq] at h
          obtain ⟨h1, h2⟩ := h
          subst h1
          subst h2
          by_cases hxc : x = cI
          · subst hxc
            rcases plantCell_cases hc with
              ⟨hbc, _, _⟩ | ⟨_, _, hcc, hst1⟩ | ⟨_, hne, _, _, _, _⟩ |
              ⟨_, hne, _, _, _, _⟩ | ⟨_, hne, _, _, _, _⟩ |
              ⟨_, hne, _, _, _, _, _⟩ | ⟨_, hne, _, _, _, _, _⟩
            · exact absurd hbc hnb
            all_goals (try exact absurd hcs hne)
            subst hcc
            have hsuffix := plantRowAux_skipStream n (x + 1) st1 (by
              intro x' hx1' _ hx3
              have hle : st1.streamIx ≤ st.streamIx := by
                rw [hst1]
                exact streamUpd_le geo (f st.k) st.streamIx (by omega)
              omega) hr
            refine ⟨by simp, st.k, le_refl _, ?_⟩
            rw [hsuffix.1, hst1]
          · have hxlt : x < cI := by omega
            rcases plantCell_streamIx hc with ⟨hsame, htint, _⟩ | ⟨hxs, _, _, _⟩
            · obtain ⟨hget, k0, hk0, hupd⟩ := ih (x + 1) st1 cI
                (by rw [hsame]; exact hcs) (by omega) (by omega) hnb hr
              have hk := plantCell_k hc
              refine ⟨?_, k0, by omega, ?_⟩
              · have harith : cI - x = (cI - (x + 1)) + 1 := by omega
                rw [harith]
                simpa [htint] using hget
              · rw [hupd, hsame]
            · exfalso
              apply hxc
              have hxi : (x : Int) = (cI : Int) := by rw [hxs, ← hcs]
              exact_mod_cast hxi

/-! ### Generator: assembled facts about plantGarden -/

lemma plantGarden_some {r : Rng} {geo : Geometry} {commits : List Commit}
    {g : List (List CellKind)} (h : plantGarden r geo commits = some g) :
    2 ≤ geo.width ∧
      ∃ st', plantRowsAux geo commits r.float 0 geo.height
        ⟨0, initStreamIx r geo, 0, 1⟩ = some (g, st') := by
  unfold plantGarden at h
  split_ifs at h with hw
  rcases hrows : plantRowsAux geo commits r.float 0 geo.height
      ⟨0, initStreamIx r geo, 0, 1⟩ with _ | ⟨rows, st'⟩ <;>
    rw [hrows] at h <;> dsimp only at h
  · exact absurd h (by simp)
  · simp only [Option.some.injEq] at h
    subst h
    exact ⟨by omega, st', rfl⟩

lemma plantCell_ne_tree {geo : Geometry} {commits : List Commit}
    {f : Nat → ℚ} {y x : Nat} {st : GenState} {c : CellKind} {st' : GenState}
    (hnb : ¬ borderCond geo y x)
    (h : plantCell geo commits f y x st = some (c, st')) : c ≠ .tree := by
  rcases plantCell_cases h with
    ⟨hb, _, _⟩ | ⟨_, _, hc, _⟩ | ⟨_, _, _, _, hc, _⟩ | ⟨_, _, _, _, hc, _⟩ |
    ⟨_, _, _, _, hc, _⟩ | ⟨_, _, _, _, _, ⟨cm, _, hc⟩, _⟩ |
    ⟨_, _, _, _, _, hc, _⟩
  · exact absurd hb hnb
  all_goals subst hc
  all_goals simp

lemma plantGarden_edge_kinds {r : Rng} {geo : Geometry}
    {commits : List Commit} {g : List (List CellKind)}
    (h : plantGarden r geo commits = some g) (hh : 2 ≤ geo.height) :
    ∀ j row, g.get? j = some row →
      row.length = geo.width ∧
      (1 ≤ j → row.get? 0 = some .tree ∧
        row.get? (geo.width - 1) = some .tree) ∧
      (j = geo.height - 1 → ∀ i, i < geo.width → row.get? i = some .tree) ∧
      (j = 0 → ∀ i c, (i = 0 ∨ i = geo.width - 1) →
        row.get? i = some c → c ≠ .tree) := by
  obtain ⟨hw, st', hrows⟩ := plantGarden_some h
  intro j row hget
  have hj : j < g.length := (List.get?_eq_some.mp hget).1
  obtain ⟨st1, st2, row2, hget2, hrow⟩ := plantRowsAux_get geo.height 0 _ hrows j hj
  have hroweq : row2 = row := by
    rw [hget] at hget2
    exact (Option.some.injEq _ _).mp hget2.symm
  subst hroweq
  have hlen : row2.length = geo.width := plantRowAux_length geo.width 0 st1 hrow
  refine ⟨hlen, ?_, ?_, ?_⟩
  · intro hj1
    have hb0 : borderCond geo (0 + j) 0 := Or.inl ⟨by omega, Or.inl rfl⟩
    have hbW : borderCond geo (0 + j) (geo.width - 1) := by
      refine Or.inl ⟨by omega, Or.inr ?_⟩
      push_cast [Nat.cast_sub (by omega : 1 ≤ geo.width)]
      ring
    constructor
    · obtain ⟨c, stA, stB, hg0, hcell⟩ :=
        plantRowAux_get geo.width 0 st1 hrow 0 (by omega)
      rw [plantCell_border hb0] at hcell
      simp only [Option.some.injEq, Prod.mk.injEq] at hcell
      rw [hg0, hcell.1]
    · obtain ⟨c, stA, stB, hgW, hcell⟩ :=
        plantRowAux_get geo.width 0 st1 hrow (geo.width - 1) (by omega)
      rw [show 0 + (geo.width - 1) = geo.width - 1 by omega] at hcell
      rw [plantCell_border hbW] at hcell
      simp only [Option.some.injEq, Prod.mk.injEq] at hcell
      rw [hgW, hcell.1]
  · intro hlast i hi
    have hb : borderCond geo (0 + j) i := by
      refine Or.inr ?_
      subst hlast
      push_cast [Nat.cast_sub (by omega : 1 ≤ geo.height)]
      ring
    obtain ⟨c, stA, stB, hgi, hcell⟩ :=
      plantRowAux_get geo.width 0 st1 hrow i hi
    rw [show 0 + i = i by omega] at hcell
    rw [plantCell_border hb] at hcell
    simp only [Option.some.injEq, Prod.mk.injEq] at hcell
    rw [hgi, hcell.1]
  · intro hj0 i c hi hgi
    subst hj0
    have hiw : i < geo.width := by omega
    obtain ⟨c2, stA, stB, hgi2, hcell⟩ :=
      plantRowAux_get geo.width 0 st1 hrow i hiw
    have hceq : c2 = c := by
      rw [hgi] at hgi2
      exact (Option.some.injEq _ _).mp hgi2.symm
    subst hceq
    have hnb : ¬ borderCond geo (0 + 0) (0 + i) := by
      intro hb
      rcases hb with ⟨hy, _⟩ | hy
      · omega
      · simp only [Nat.zero_add, Nat.cast_ofNat] at hy
        omega
    rw [show (0 : Nat) + i = i by omega] at hcell hnb
    exact plantCell_ne_tree hnb hcell

/-! ### The claims about the generator -/

/-- C3: the grid is a deterministic function of the seeded random stream,
the geometry and the commit list: two sources that agree on every draw the
generator can reach (the one `Intn` draw and the at most `height * width`
float draws after it) produce identical grids; in particular two runs with
the same seed (hence the same stream), the same geometry and the same
commit sequence produce identical grids, cell for cell. -/
theorem claim3_deterministic (r1 r2 : Rng) (geo : Geometry)
    (commits : List Commit)
    (hintn : r1.intn 0 (geo.width - 1) = r2.intn 0 (geo.width - 1))
    (hfloat : ∀ k, k < 1 + geo.height * geo.width →
      r1.float k = r2.float k) :
    plantGarden r1 geo commits = plantGarden r2 geo commits := by
  unfold plantGarden
  split_ifs with hw
  · rfl
  · have hinit : initStreamIx r1 geo = initStreamIx r2 geo := by
      unfold initStreamIx
      rw [hintn]
    rw [hinit]
    have hrows := @plantRowsAux_agree geo commits r1.float r2.float
      geo.height 0 ⟨0, initStreamIx r2 geo, 0, 1⟩ (by
        intro j hj1 hj2
        refine hfloat j ?_
        simpa using hj2)
    rw [hrows]

/-- Witness for C3: a source that agrees with `rngEx0` only on the first
100 draws already yields the very same grid. -/
theorem claim3_witness :
    plantGarden rngW1 geoEx [commitEx1, commitEx2] =
      plantGarden rngEx0 geoEx [commitEx1, commitEx2] :=
  claim3_deterministic rngW1 rngEx0 geoEx [commitEx1, commitEx2] rfl
    (by
      intro k hk
      have hk2 : k < 21 := by simpa [geoEx] using hk
      have hk3 : k < 100 := by omega
      simp [rngW1, rngEx0, hk3])

/-- C4: in every generated grid the flower cells hold the commits taken
strictly in input order, each consumed at most once (the flower sequence
is a prefix of the commit list), the flower count is at most the number of
commits, the grid never exceeds `height` rows, and a grid shorter than
`height` rows means row generation stopped with exactly
(total commits - 1) flowers placed. -/
theorem claim4_flower_accounting (r : Rng) (geo : Geometry)
    (commits : List Commit) :
    optAll (c4check geo commits) (plantGarden r geo commits) = true := by
  rcases hg : plantGarden r geo commits with _ | g
  · rfl
  · obtain ⟨hw, st', hrows⟩ := plantGarden_some hg
    obtain ⟨hmono, hflow⟩ := plantRowsAux_cellIx geo.height 0 _ hrows
    have hlen : g.length ≤ geo.height :=
      plantRowsAux_length geo.height 0 _ hrows
    simp only [List.drop_zero, Nat.sub_zero] at hflow
    have hcount : (flowersOf g).length = min st'.cellIx commits.length := by
      rw [hflow, List.length_take]
    simp only [optAll, c4check, Bool.and_eq_true, decide_eq_true_eq]
    refine ⟨⟨⟨?_, ?_⟩, hlen⟩, ?_⟩
    · rw [hcount, hflow]
      rcases le_total st'.cellIx commits.length with hc | hc
      · rw [min_eq_left hc]
      · rw [min_eq_right hc, List.take_length,
          List.take_of_length_le hc]
    · rw [hcount]
      exact min_le_right _ _
    · split_ifs with hshort
      · have hbreak := plantRowsAux_break geo.height 0 _ hrows hshort
        simp only [decide_eq_true_eq]
        have hn : st'.cellIx + 1 = commits.length := by omega
        rw [hcount]
        omega
      · rfl

/-- C9: with at least one commit (and width at least 2, so the generator
runs at all), the flower branch only ever reads an in-bounds index and
generation succeeds; with the empty commit list the break guard compares
the cursor 0 against -1 and never fires, so a successful density draw
reaches index 0 of the empty list and generation panics. -/
theorem claim9_index_safety :
    (∀ (r : Rng) (geo : Geometry) (commits : List Commit),
      commits ≠ [] → 2 ≤ geo.width →
      (plantGarden r geo commits).isSome = true) ∧
    plantGarden rngEx0 geoEx [] = none := by
  constructor
  · intro r geo commits hne hw
    unfold plantGarden
    rw [if_neg (by omega)]
    obtain ⟨rows, st', hrows, _⟩ :=
      @plantRowsAux_isSome geo commits r.float
        geo.height 0 ⟨0, initStreamIx r geo, 0, 1⟩
        (by
          show 0 < commits.length
          exact List.length_pos.mpr hne)
    rw [hrows]
    rfl
  · decide

/-- Witness for C9: a one-commit garden generates successfully. -/
theorem claim9_witness :
    (plantGarden rngEx0 geoEx [commitEx1]).isSome = true :=
  claim9_index_safety.1 rngEx0 geoEx [commitEx1]
    (List.cons_ne_nil _ _) (by decide)

/-- C10: from the start of any row y ≥ 1 whose stream column is 0,
width-1 or width, no stream cell is placed in that row (the tree border
claims columns 0 and width-1 before the stream check, and column `width`
is never visited); since the column is only updated right after a
placement it keeps its value, and no stream cell appears in that row or
any later row of the grid. -/
theorem claim10_stream_stuck (geo : Geometry) (commits : List Commit)
    (f : Nat → ℚ) (fuel y : Nat) (st : GenState) (hy : 1 ≤ y)
    (hs : st.streamIx = 0 ∨ st.streamIx = (geo.width : Int) - 1 ∨
      st.streamIx = (geo.width : Int)) :
    optAll (fun p => decide (p.2.streamIx = st.streamIx) &&
        p.1.all streamFree) (plantRowsAux geo commits f y fuel st) = true := by
  rcases h : plantRowsAux geo commits f y fuel st with _ | ⟨rows, st'⟩
  · rfl
  · obtain ⟨h1, h2⟩ := plantRowsAux_skipStream fuel y st hy hs h
    simp [optAll, h1, h2]

/-- Witness for C10: a run over the remaining rows from row 1 with the
stream column stuck at 0. -/
theorem claim10_witness :
    optAll (fun p => decide (p.2.streamIx =
        (⟨0, 0, 0, 1⟩ : GenState).streamIx) && p.1.all streamFree)
      (plantRowsAux geoEx [commitEx1, commitEx2] (fun _ => 0) 1 3
        ⟨0, 0, 0, 1⟩) = true :=
  claim10_stream_stuck geoEx [commitEx1, commitEx2] (fun _ => 0) 3 1
    ⟨0, 0, 0, 1⟩ (by omega) (Or.inl rfl)

/-- C7: the stream layout. (1) The starting stream column is the
`Intn(width-1)` draw (hence in `[0, width-2]`), shifted left by one exactly
when it equals `width/2`; it therefore stays in `[0, width-2]` and differs
from `width/2`. (2) The code's post-placement update equals the spec's
walk: decrement by 1, increment back when the draw is below one half, and
clamp to `[0, width]`. (3) At cell level, a non-border cell at the current
stream column becomes a stream cell and the column is updated by that
walk. (4) At row level, when the current stream column is a real column
not claimed by the tree border, the generated row holds the stream cell at
that column, and the row's final stream column is the walk applied to the
entering one (at the draw consumed there). -/
theorem claim7_stream_layout :
    (∀ (r : Rng) (geo : Geometry), 2 ≤ geo.width →
      initStreamIx r geo =
        (if r.intn 0 (geo.width - 1) % (geo.width - 1) = geo.width / 2
         then ((r.intn 0 (geo.width - 1) % (geo.width - 1) : Nat) : Int) - 1
         else ((r.intn 0 (geo.width - 1) % (geo.width - 1) : Nat) : Int)) ∧
      0 ≤ initStreamIx r geo ∧
      initStreamIx r geo ≤ (geo.width : Int) - 2 ∧
      initStreamIx r geo ≠ ((geo.width / 2 : Nat) : Int)) ∧
    (∀ (geo : Geometry) (q : ℚ) (s : Int),
      streamUpd geo q s = streamStepSpec geo q s) ∧
    (∀ (geo : Geometry) (commits : List Commit) (f : Nat → ℚ) (y x : Nat)
      (st : GenState), ¬ borderCond geo y x → (x : Int) = st.streamIx →
      plantCell geo commits f y x st =
        some (.stream st.tint,
          { st with tint := st.tint + 15,
                    streamIx := streamUpd geo (f st.k) st.streamIx,
                    k := st.k + 1 })) ∧
    (∀ (geo : Geometry) (commits : List Commit) (f : Nat → ℚ) (y : Nat)
      (st : GenState) (c : Nat), (c : Int) = st.streamIx → c < geo.width →
      ¬ borderCond geo y c →
      optAll (fun p => decide (p.1.get? c = some (CellKind.stream st.tint)))
        (plantRow geo commits f y st) = true ∧
      (∀ row st', plantRow geo commits f y st = some (row, st') →
        ∃ k0, st.k ≤ k0 ∧
          st'.streamIx = streamUpd geo (f k0) st.streamIx)) := by
  refine ⟨?_, ?_, ?_, ?_⟩
  · intro r geo hw
    have hd : r.intn 0 (geo.width - 1) % (geo.width - 1) < geo.width - 1 :=
      Nat.mod_lt _ (by omega)
    unfold initStreamIx
    dsimp only
    refine ⟨rfl, ?_, ?_, ?_⟩ <;> split_ifs with hsh <;> omega
  · intro geo q s
    unfold streamUpd streamStepSpec
    dsimp only
    split_ifs <;> omega
  · intro geo commits f y x st hnb hxs
    unfold plantCell
    rw [if_neg hnb, if_pos hxs]
  · intro geo commits f y st c hcs hcw hnb
    constructor
    · rcases h : plantRow geo commits f y st with _ | ⟨row, st'⟩
      · rfl
      · obtain ⟨hget, _⟩ := plantRowAux_placeStream geo.width 0 st c hcs
          (by omega) (by omega) hnb h
        simp only [Nat.sub_zero] at hget
        simp only [optAll, decide_eq_true_eq]
        simpa using hget
    · intro row st' h
      obtain ⟨_, k0, hk0, hupd⟩ := plantRowAux_placeStream geo.width 0 st c
        hcs (by omega) (by omega) hnb h
      exact ⟨k0, hk0, hupd⟩

/-- Witness for C7: the start-column facts at a concrete source and
geometry, and the row-level placement at row 0 with the stream column at
1. -/
theorem claim7_witness :
    (0 ≤ initStreamIx rngEx0 geoEx ∧
      initStreamIx rngEx0 geoEx ≤ (geoEx.width : Int) - 2 ∧
      initStreamIx rngEx0 geoEx ≠ ((geoEx.width / 2 : Nat) : Int)) ∧
    optAll (fun p => decide (p.1.get? 1 =
        some (CellKind.stream (⟨0, 1, 0, 1⟩ : GenState).tint)))
      (plantRow geoEx [commitEx1, commitEx2] (fun _ => 0) 0
        ⟨0, 1, 0, 1⟩) = true :=
  ⟨(claim7_stream_layout.1 rngEx0 geoEx (by decide)).2,
    (claim7_stream_layout.2.2.2 geoEx [commitEx1, commitEx2] (fun _ => 0) 0
      ⟨0, 1, 0, 1⟩ 1 rfl (by decide) (by decide)).1⟩

lemma render_tree (geo : Geometry) : render geo CellKind.tree = treeCellVal :=
  rfl

/-- C2 (amended): in every generated grid (width ≥ 2, height ≥ 2) every
row after row 0 holds the fixed tree cell (fixed glyph, fixed status text)
at columns 0 and width-1, and when the grid reached its full `height` rows
every cell of the last row is that fixed tree cell; but the cells of row 0
at columns 0 and width-1 are never tree cells (the tree branch requires
y > 0 or y = height-1; codewise those corners are wildflower, stream or
sign cells). -/
theorem claim2_border_trees (r : Rng) (geo : Geometry)
    (commits : List Commit) (hw : 2 ≤ geo.width) (hh : 2 ≤ geo.height) :
    optAll (rowEdgesTree geo) (plantGardenCells r geo commits) = true ∧
    optAll (lastRowTree geo) (plantGardenCells r geo commits) = true ∧
    optAll (row0NotTree geo) (plantGarden r geo commits) = true := by
  rcases hg : plantGarden r geo commits with _ | g
  · refine ⟨?_, ?_, ?_⟩ <;> simp [plantGardenCells, hg, optAll]
  · have hedge := plantGarden_edge_kinds hg hh
    have hcells : plantGardenCells r geo commits =
        some (g.map (List.map (render geo))) := by
      rw [plantGardenCells, hg]
      rfl
    refine ⟨?_, ?_, ?_⟩
    · rw [hcells]
      show rowEdgesTree geo (g.map (List.map (render geo))) = true
      unfold rowEdgesTree
      rw [List.all_eq_true]
      intro y hy
      rw [List.mem_range, List.length_map] at hy
      split_ifs with hy0
      · rfl
      · have hrow := List.get?_eq_get hy
        obtain ⟨hlen, hedges, _, _⟩ := hedge y _ hrow
        obtain ⟨h1, h2⟩ := hedges (by omega)
        have hmap : (g.map (List.map (render geo))).get? y =
            some ((g.get ⟨y, hy⟩).map (render geo)) := by
          rw [List.get?_map, hrow]
          rfl
        rw [hmap]
        dsimp only
        rw [Bool.and_eq_true, decide_eq_true_eq, decide_eq_true_eq]
        constructor
        · rw [List.get?_map, h1]
          rfl
        · rw [List.get?_map, h2]
          rfl
    · rw [hcells]
      show lastRowTree geo (g.map (List.map (render geo))) = true
      unfold lastRowTree
      split_ifs with hfull
      · rw [List.length_map] at hfull
        have hlt : geo.height - 1 < g.length := by omega
        have hrow := List.get?_eq_get hlt
        obtain ⟨hlen, _, hlast, _⟩ := hedge (geo.height - 1) _ hrow
        have hmap : (g.map (List.map (render geo))).get? (geo.height - 1) =
            some ((g.get ⟨geo.height - 1, hlt⟩).map (render geo)) := by
          rw [List.get?_map, hrow]
          rfl
        rw [hmap]
        dsimp only
        rw [List.all_eq_true]
        intro cell hcell
        rcases List.mem_map.mp hcell with ⟨ck, hckmem, rfl⟩
        obtain ⟨i, hi⟩ := List.mem_iff_get?.mp hckmem
        have hilen : i < (g.get ⟨geo.height - 1, hlt⟩).length :=
          (List.get?_eq_some.mp hi).1
        have htree : (g.get ⟨geo.height - 1, hlt⟩).get? i =
            some CellKind.tree := hlast rfl i (by omega)
        rw [hi] at htree
        have hck : ck = CellKind.tree :=
          (Option.some.injEq _ _).mp htree
        rw [decide_eq_true_eq, hck]
        rfl
      · rfl
    · show optAll (row0NotTree geo) (some g) = true
      unfold optAll row0NotTree
      dsimp only
      rcases h0 : g.get? 0 with _ | row
      · rfl
      · obtain ⟨hlen, _, _, hnt⟩ := hedge 0 row h0
        dsimp only
        rw [Bool.and_eq_true]
        constructor
        · rcases hA : row.get? 0 with _ | c0
          · rfl
          · cases c0 <;>
              first
                | rfl
                | exact absurd rfl (hnt rfl 0 CellKind.tree (Or.inl rfl) hA)
        · rcases hB : row.get? (geo.width - 1) with _ | cW
          · rfl
          · cases cW <;>
              first
                | rfl
                | exact absurd rfl
                    (hnt rfl (geo.width - 1) CellKind.tree (Or.inr rfl) hB)

/-- Witness for C2 (amended): the border facts at a concrete run. -/
theorem claim2_witness :
    optAll (rowEdgesTree geoEx)
      (plantGardenCells rngEx1 geoEx [commitEx1, commitEx2]) = true ∧
    optAll (lastRowTree geoEx)
      (plantGardenCells rngEx1 geoEx [commitEx1, commitEx2]) = true ∧
    optAll (row0NotTree geoEx)
      (plantGarden rngEx1 geoEx [commitEx1, commitEx2]) = true :=
  claim2_border_trees rngEx1 geoEx [commitEx1, commitEx2]
    (by decide) (by decide)

/-- Counterexample to C2 as stated: in a concrete run (width 5, height 4)
the cell of row 0 at column 0 is a wildflower cell, not a tree cell (and
its rendered form differs from the fixed tree cell); and in a concrete
early-terminated run the grid stops after 2 of its 4 rows and its last
generated row holds a grass cell, so that row is not all trees either. -/
theorem claim2_counterexample :
    (cellKindAt (plantGarden rngEx1 geoEx [commitEx1, commitEx2]) 0 0 =
      some CellKind.wildflower ∧
    CellKind.wildflower ≠ CellKind.tree ∧
    render geoEx CellKind.wildflower ≠ treeCellVal) ∧
    ((plantGarden rngEx0 geoEx [commitEx1, commitEx2]).map List.length =
      some 2 ∧
    cellKindAt (plantGarden rngEx0 geoEx [commitEx1, commitEx2]) 1 3 =
      some CellKind.grass ∧
    CellKind.grass ≠ CellKind.tree) :=
  ⟨⟨by decide, by decide, by decide⟩, ⟨by decide, by decide, by decide⟩⟩

end Garden
